import Mathlib

/-!
k8sgpt: the CronJob analyzer and the filter list command.

A shallow embedding of `pkg/analyzer/cronjob.go` (`CronJobAnalyzer.Analyze`,
`CheckCronScheduleIsValid`) and of the set computation of
`cmd/filters/list.go` (`listCmd.Run`), with theorems about them.

Conventions.
* A Go `error` is its message; a nil-able error is an `Option String`.
* An `int64` is an `Int` in the range of `isInt64`; arithmetic that can
  overflow is wrapped explicitly by `wrapInt64`.
* A Go `map[string]V` is an association list with pairwise distinct keys;
  assignment is `mapSet`. The order in which `range` visits a map is not
  fixed by the language, so it is an explicit argument of `Analyze`
  (`rangeOrder`), constrained only by `ValidRangeOrder`.
* Calls on the process-wide gauge vector `AnalyzerErrorsMetric` are recorded
  in a trace, in program order.
* `util.MaskString` and `cron.ParseStandard` live outside the files embedded
  here; both are arguments of the definitions that call them.
-/

namespace K8sgpt

/-! ## Data model -/

/-- Modelled from the spec: `common.Sensitive`, the pair of an identifier and
its masked form (declared in `pkg/common`, which is not among the sources). -/
structure Sensitive where
  Unmasked : String
  Masked : String
deriving DecidableEq, Repr

/-- Modelled from the spec: `common.Failure`, one diagnostic line and the
sensitive pairs its text refers to (declared in `pkg/common`). -/
structure Failure where
  Text : String
  Sensitive : List Sensitive
deriving DecidableEq, Repr

/-- Modelled from the spec: `common.Result`, the finding record of one object
(declared in `pkg/common`). -/
structure Result where
  Kind : String
  Name : String
  Error : List Failure
deriving DecidableEq, Repr

/-- Modelled from the spec: `common.PreAnalysis`, restricted to the one field
the CronJob analyzer writes and reads, `FailureDetails` (declared in
`pkg/common`). -/
structure PreAnalysis where
  FailureDetails : List Failure
deriving DecidableEq, Repr

/-- The fields of `batchv1.CronJobSpec` that the analyzer reads. `Suspend` is a
`*bool` and `StartingDeadlineSeconds` a `*int64`: `none` is the nil pointer. -/
structure CronJobSpec where
  Schedule : String
  Suspend : Option Bool
  StartingDeadlineSeconds : Option Int
deriving DecidableEq, Repr

/-- The fields of `batchv1.CronJob` that the analyzer reads. -/
structure CronJob where
  Namespace : String
  Name : String
  Spec : CronJobSpec
deriving DecidableEq, Repr

/-- The range of a Go `int64`. -/
def isInt64 (x : Int) : Prop := -9223372036854775808 ≤ x ∧ x ≤ 9223372036854775807

instance (x : Int) : Decidable (isInt64 x) := by
  unfold isInt64; exact inferInstance

/-- Two-complement wrap-around of a mathematical integer into `int64`. -/
def wrapInt64 (x : Int) : Int := (x + 9223372036854775808) % 18446744073709551616 - 9223372036854775808

/-- The constant `time.Second`, a `time.Duration` (an `int64` of nanoseconds). -/
def Second : Int := 1000000000

/-- One call on the gauge vector `AnalyzerErrorsMetric`. The gauge value is
`float64(len(failures))`, recorded as the length itself. -/
inductive MetricCall where
  | DeletePartialMatch (labels : List (String × String))
  | Set (labelValues : List String) (value : Nat)
deriving DecidableEq, Repr

/-- The cluster client, reduced to the one call the analyzer makes:
`BatchV1().CronJobs(namespace).List(...)`, giving the items or an error. -/
structure Client where
  ListCronJobs : String → Except String (List CronJob)

/-- The fields of `common.Analyzer` (the execution context) that the analyzer
reads or writes. -/
structure Analyzer where
  Client : Client
  Namespace : String
  Results : List Result

/-- What `Analyze` returns, `([]common.Result, error)`, together with the trace
of the calls it made on the gauge vector. -/
structure AnalyzeOutput where
  results : List Result
  err : Option String
  metricCalls : List MetricCall

/-! ## Go maps -/

/-- The content of a `map[string]common.PreAnalysis`. -/
abbrev PreAnalysisMap := List (String × PreAnalysis)

/-- The assignment `m[k] = v`: overwrite the entry of `k`, or add one. -/
def mapSet : PreAnalysisMap → String → PreAnalysis → PreAnalysisMap
  | [], k, v => [(k, v)]
  | (k0, v0) :: rest, k, v =>
    if k0 = k then (k, v) :: rest else (k0, v0) :: mapSet rest k v

/-- The lookup `m[k]` with its presence flag. -/
def mapGet : PreAnalysisMap → String → Option PreAnalysis
  | [], _ => none
  | (k0, v0) :: rest, k => if k0 = k then some v0 else mapGet rest k

/-- The order in which the `range` of the `i`-th iteration of the outer loop
visits the entries of the map. -/
abbrev RangeOrder := Nat → PreAnalysisMap → PreAnalysisMap

/-- A `range` visits every entry of the map exactly once, in some order. -/
def ValidRangeOrder (rangeOrder : RangeOrder) : Prop :=
  ∀ i m, (rangeOrder i m).Perm m

/-! ## `pkg/analyzer/cronjob.go` -/

/-- `CheckCronScheduleIsValid`: the schedule is valid when `cron.ParseStandard`
returns no error. `ParseStandard` gives the error of the parser (`none` for
nil); the parsed schedule itself is discarded by the source. -/
def CheckCronScheduleIsValid (ParseStandard : String → Option String)
    (schedule : String) : Bool × Option String :=
  match ParseStandard schedule with
  | some err => (false, some err)
  | none => (true, none)

/-- The rule evaluation of one listed object: the value of `failures` at the end
of the `if`/`else` of the loop body of `Analyze`. -/
def cronJobFailures (MaskString : String → String)
    (ParseStandard : String → Option String) (cronJob : CronJob) : List Failure :=
  let failures : List Failure := []
  if cronJob.Spec.Suspend = some true then
    failures ++ [{
      Text := "CronJob " ++ cronJob.Name ++ " is suspended",
      Sensitive := [
        { Unmasked := cronJob.Namespace, Masked := MaskString cronJob.Namespace },
        { Unmasked := cronJob.Name, Masked := MaskString cronJob.Name }] }]
  else
    let failures :=
      match (CheckCronScheduleIsValid ParseStandard cronJob.Spec.Schedule).2 with
      | some err =>
        failures ++ [{
          Text := "CronJob " ++ cronJob.Name ++ " has an invalid schedule: " ++ err,
          Sensitive := [
            { Unmasked := cronJob.Namespace, Masked := MaskString cronJob.Namespace },
            { Unmasked := cronJob.Name, Masked := MaskString cronJob.Name }] }]
      | none => failures
    match cronJob.Spec.StartingDeadlineSeconds with
    | some seconds =>
      let deadline := wrapInt64 (seconds * Second)
      if deadline < 0 then
        failures ++ [{
          Text := "CronJob " ++ cronJob.Name ++ " has a negative starting deadline",
          Sensitive := [
            { Unmasked := cronJob.Namespace, Masked := MaskString cronJob.Namespace },
            { Unmasked := cronJob.Name, Masked := MaskString cronJob.Name }] }]
      else failures
    | none => failures

/-- The key of an object in `preAnalysis`: `fmt.Sprintf("%s/%s", namespace, name)`. -/
def objectKey (cronJob : CronJob) : String :=
  cronJob.Namespace ++ "/" ++ cronJob.Name

/-- The variables that the loop over the listed items updates. -/
structure LoopState where
  preAnalysis : PreAnalysisMap
  aResults : List Result
  metricCalls : List MetricCall

/-- The inner loop `for key, value := range preAnalysis`: every visited entry
assigns `append(results, currentAnalysis)` to `a.Results`, where `results` is
the local slice of `Analyze`. -/
def rangePreAnalysis (kind : String) (results : List Result)
    (visited : PreAnalysisMap) (aResults : List Result) : List Result :=
  visited.foldl
    (fun _ entry => results ++ [{ Kind := kind, Name := entry.1, Error := entry.2.FailureDetails }])
    aResults

/-- The body of the loop `for _, cronJob := range cronJobList.Items`, at its
`i`-th iteration. -/
def analyzeItem (MaskString : String → String) (ParseStandard : String → Option String)
    (rangeOrder : RangeOrder) (kind : String) (results : List Result)
    (i : Nat) (st : LoopState) (cronJob : CronJob) : LoopState :=
  let failures := cronJobFailures MaskString ParseStandard cronJob
  let st1 : LoopState :=
    if failures.length > 0 then
      { st with
        preAnalysis := mapSet st.preAnalysis (objectKey cronJob) { FailureDetails := failures },
        metricCalls := st.metricCalls ++
          [MetricCall.Set [kind, cronJob.Name, cronJob.Namespace] failures.length] }
    else st
  { st1 with
    aResults := rangePreAnalysis kind results (rangeOrder i st1.preAnalysis) st1.aResults }

/-- The loop `for _, cronJob := range cronJobList.Items`, from iteration `i` on. -/
def analyzeLoop (MaskString : String → String) (ParseStandard : String → Option String)
    (rangeOrder : RangeOrder) (kind : String) (results : List Result) :
    Nat → List CronJob → LoopState → LoopState
  | _, [], st => st
  | i, cronJob :: rest, st =>
    analyzeLoop MaskString ParseStandard rangeOrder kind results (i + 1) rest
      (analyzeItem MaskString ParseStandard rangeOrder kind results i st cronJob)

/-- `CronJobAnalyzer.Analyze`. The receiver `a` is passed by value, so the
assignments to `a.Results` change the local copy only; that copy is what the
function returns on success. -/
def Analyze (MaskString : String → String) (ParseStandard : String → Option String)
    (rangeOrder : RangeOrder) (a : Analyzer) : AnalyzeOutput :=
  let kind := "CronJob"
  let metricCalls := [MetricCall.DeletePartialMatch [("analyzer_name", kind)]]
  let results : List Result := []
  match a.Client.ListCronJobs a.Namespace with
  | Except.error err => { results := results, err := some err, metricCalls := metricCalls }
  | Except.ok items =>
    let st := analyzeLoop MaskString ParseStandard rangeOrder kind results 0 items
      { preAnalysis := [], aResults := a.Results, metricCalls := metricCalls }
    { results := st.aResults, err := none, metricCalls := st.metricCalls }

/-! ## `cmd/filters/list.go` -/

/-- Modelled from the spec: `util.SliceDiff` (in `pkg/util`, which is not among
the sources), the set difference `source − dest` that keeps the order of
`source`: a pass over `source` that keeps the elements absent from `dest`. -/
def SliceDiff (source dest : List String) : List String :=
  source.foldl (fun diff x => if dest.contains x then diff else diff ++ [x]) []

/-- The three lists that `listCmd.Run` computes before it prints them. -/
structure FilterSets where
  activeFilters : List String
  availableFilters : List String
  inactiveFilters : List String
deriving DecidableEq, Repr

/-- The set computation of `listCmd.Run`. `configured` is
`viper.GetStringSlice("active_filters")`; the other three arguments are what
`analyzer.ListFilters()` returns. -/
def listRun (configured coreFilters additionalFilters integrationFilters : List String) :
    FilterSets :=
  let activeFilters := configured
  let availableFilters := (coreFilters ++ additionalFilters) ++ integrationFilters
  let activeFilters := if activeFilters.length = 0 then coreFilters else activeFilters
  let inactiveFilters := SliceDiff availableFilters activeFilters
  { activeFilters := activeFilters,
    availableFilters := availableFilters,
    inactiveFilters := inactiveFilters }

/-! ## Concrete instances used below -/

/-- A masking function for concrete instances: every character becomes `*`. -/
def starMask (s : String) : String := String.mk (s.data.map (fun _ => '*'))

/-- A parser for concrete instances: a spec is accepted when it has exactly
five blank-separated fields, and rejected with a fixed message otherwise. -/
def fiveFieldParser (spec : String) : Option String :=
  if ((spec.data.splitOn ' ').filter (fun f => f ≠ [])).length = 5 then none
  else some "expected exactly 5 fields"

/-- The range order that visits the entries as they are stored. -/
def storedOrder : RangeOrder := fun _ m => m

/-- The range order that visits the entries in reverse. -/
def reversedOrder : RangeOrder := fun _ m => m.reverse

/-- A client whose listing succeeds with the given items in every namespace. -/
def clientOf (items : List CronJob) : Client := { ListCronJobs := fun _ => Except.ok items }

/-- A client whose listing fails with the given error. -/
def failingClient (err : String) : Client := { ListCronJobs := fun _ => Except.error err }

/-- The text of the invalid-schedule Failure of an object called `name`, for
some parse error. -/
def InvalidScheduleText (name text : String) : Prop :=
  ∃ err : String, text = "CronJob " ++ name ++ " has an invalid schedule: " ++ err

/-- The text of the negative-starting-deadline Failure of an object called `name`. -/
def NegativeDeadlineText (name text : String) : Prop :=
  text = "CronJob " ++ name ++ " has a negative starting deadline"

instance (name text : String) : Decidable (NegativeDeadlineText name text) := by
  unfold NegativeDeadlineText; exact inferInstance

/-- The CronJob `batch/nightly`: suspended, with a schedule no parser of five
fields accepts, and a negative starting deadline. -/
def nightly : CronJob :=
  { Namespace := "batch", Name := "nightly",
    Spec := { Schedule := "every night", Suspend := some true,
              StartingDeadlineSeconds := some (-5) } }

/-- The CronJob `ops/backup`: not suspended, schedule `* * *`, no deadline. -/
def backup : CronJob :=
  { Namespace := "ops", Name := "backup",
    Spec := { Schedule := "* * *", Suspend := some false,
              StartingDeadlineSeconds := none } }

/-- The CronJob `ops/ok`: not suspended, a five-field schedule, deadline 30. -/
def healthy : CronJob :=
  { Namespace := "ops", Name := "ok",
    Spec := { Schedule := "0 3 * * *", Suspend := none,
              StartingDeadlineSeconds := some 30 } }

/-- The CronJob `ops/late`: not suspended, a five-field schedule, deadline -1. -/
def late : CronJob :=
  { Namespace := "ops", Name := "late",
    Spec := { Schedule := "0 3 * * *", Suspend := some false,
              StartingDeadlineSeconds := some (-1) } }

/-- The CronJob `batch/paused`: suspended, a five-field schedule, deadline -1. -/
def paused : CronJob :=
  { Namespace := "batch", Name := "paused",
    Spec := { Schedule := "0 3 * * *", Suspend := some true,
              StartingDeadlineSeconds := some (-1) } }

/-- The CronJob `ops/far`: not suspended, a five-field schedule, and a positive
deadline whose product with `time.Second` exceeds the largest `int64`. -/
def far : CronJob :=
  { Namespace := "ops", Name := "far",
    Spec := { Schedule := "0 3 * * *", Suspend := none,
              StartingDeadlineSeconds := some 9223372037 } }

/-- The CronJob `ops/past`: not suspended, a five-field schedule, and a negative
deadline whose product with `time.Second` is below the smallest `int64`. -/
def past : CronJob :=
  { Namespace := "ops", Name := "past",
    Spec := { Schedule := "0 3 * * *", Suspend := none,
              StartingDeadlineSeconds := some (-9223372037) } }

/-! ## The three Failures, named -/

/-- The Failure literal of the suspended branch of `Analyze`. -/
def suspendedFailure (MaskString : String → String) (cronJob : CronJob) : Failure :=
  { Text := "CronJob " ++ cronJob.Name ++ " is suspended",
    Sensitive := [
      { Unmasked := cronJob.Namespace, Masked := MaskString cronJob.Namespace },
      { Unmasked := cronJob.Name, Masked := MaskString cronJob.Name }] }

/-- The Failure literal of the schedule check of `Analyze`, for the parse
error `err`. -/
def invalidScheduleFailure (MaskString : String → String) (cronJob : CronJob)
    (err : String) : Failure :=
  { Text := "CronJob " ++ cronJob.Name ++ " has an invalid schedule: " ++ err,
    Sensitive := [
      { Unmasked := cronJob.Namespace, Masked := MaskString cronJob.Namespace },
      { Unmasked := cronJob.Name, Masked := MaskString cronJob.Name }] }

/-- The Failure literal of the starting-deadline check of `Analyze`. -/
def negativeDeadlineFailure (MaskString : String → String) (cronJob : CronJob) : Failure :=
  { Text := "CronJob " ++ cronJob.Name ++ " has a negative starting deadline",
    Sensitive := [
      { Unmasked := cronJob.Namespace, Masked := MaskString cronJob.Namespace },
      { Unmasked := cronJob.Name, Masked := MaskString cronJob.Name }] }

/-- What the schedule check adds to `failures`. -/
def scheduleRule (MaskString : String → String) (ParseStandard : String → Option String)
    (cronJob : CronJob) : List Failure :=
  match ParseStandard cronJob.Spec.Schedule with
  | some err => [invalidScheduleFailure MaskString cronJob err]
  | none => []

/-- What the starting-deadline check adds to `failures`. -/
def deadlineRule (MaskString : String → String) (cronJob : CronJob) : List Failure :=
  match cronJob.Spec.StartingDeadlineSeconds with
  | some seconds =>
    if wrapInt64 (seconds * Second) < 0 then [negativeDeadlineFailure MaskString cronJob]
    else []
  | none => []

/-! ## The loop of `Analyze` -/

/-- The state in which `Analyze` enters the loop over the listed items. -/
def loopStart (a : Analyzer) : LoopState :=
  { preAnalysis := [], aResults := a.Results,
    metricCalls := [MetricCall.DeletePartialMatch [("analyzer_name", "CronJob")]] }

/-- The state in which `Analyze` leaves the loop over the listed items. -/
def loopEnd (MaskString : String → String) (ParseStandard : String → Option String)
    (rangeOrder : RangeOrder) (a : Analyzer) (items : List CronJob) : LoopState :=
  analyzeLoop MaskString ParseStandard rangeOrder "CronJob" [] 0 items (loopStart a)

/-- The loop invariant, after the objects `done` have been processed: the map
has distinct keys; each entry is the key and Failure sequence of a processed
object with at least one Failure; a processed object with a Failure leaves the
map non-empty; `a.Results` is the incoming accumulator `a0` while the map is
empty and the one-element sequence of some entry of the map afterwards. -/
structure LoopInv (MaskString : String → String) (ParseStandard : String → Option String)
    (kind : String) (results a0 : List Result) (done : List CronJob) (st : LoopState) :
    Prop where
  keys : (st.preAnalysis.map Prod.fst).Nodup
  entries : ∀ e ∈ st.preAnalysis, ∃ cj ∈ done, objectKey cj = e.1
    ∧ e.2.FailureDetails = cronJobFailures MaskString ParseStandard cj
    ∧ cronJobFailures MaskString ParseStandard cj ≠ []
  covered : ∀ cj ∈ done, cronJobFailures MaskString ParseStandard cj ≠ [] →
    st.preAnalysis ≠ []
  untouched : st.preAnalysis = [] → st.aResults = a0
  assigned : st.preAnalysis ≠ [] → ∃ e ∈ st.preAnalysis,
    st.aResults = results ++ [{ Kind := kind, Name := e.1, Error := e.2.FailureDetails }]

/-- The execution context with an empty accumulator whose listing gives
`ops/backup` and `batch/nightly`, two objects with a Failure each. -/
def twoFailing : Analyzer :=
  { Client := clientOf [backup, nightly], Namespace := "", Results := [] }

/-- The execution context whose listing gives the one healthy object `ops/ok`
and whose accumulator holds a Result with no Failure, named `ops/ok`. -/
def staleAccumulator : Analyzer :=
  { Client := clientOf [healthy], Namespace := "",
    Results := [{ Kind := "Pod", Name := "ops/ok", Error := [] }] }

/-- The execution context whose listing fails with `connection refused` and
whose accumulator holds one Result. -/
def unreachable : Analyzer :=
  { Client := failingClient "connection refused", Namespace := "batch",
    Results := [{ Kind := "Pod", Name := "ops/ok", Error := [] }] }

/-! ## Texts of the three Failures -/

theorem text_eq_iff (n a b : String) :
    "CronJob " ++ n ++ a = "CronJob " ++ n ++ b ↔ a = b := by
  constructor
  · intro h
    have h1 := congrArg String.data h
    simp only [String.data_append] at h1
    exact String.ext (List.append_cancel_left h1)
  · intro h; rw [h]

theorem suspended_ne_invalid (e : String) :
    " is suspended" ≠ " has an invalid schedule: " ++ e := by
  intro h
  have h1 := congrArg (fun s => s.data.take 2) h
  simp [String.data_append] at h1

theorem negative_ne_invalid (e : String) :
    " has a negative starting deadline" ≠ " has an invalid schedule: " ++ e := by
  intro h
  have h1 := congrArg (fun s => s.data.take 7) h
  simp [String.data_append] at h1

theorem suspended_text_not_invalid (n : String) :
    ¬ InvalidScheduleText n ("CronJob " ++ n ++ " is suspended") := by
  rintro ⟨e, he⟩
  rw [String.append_assoc ("CronJob " ++ n), text_eq_iff] at he
  exact suspended_ne_invalid e he

theorem negative_text_not_invalid (n : String) :
    ¬ InvalidScheduleText n ("CronJob " ++ n ++ " has a negative starting deadline") := by
  rintro ⟨e, he⟩
  rw [String.append_assoc ("CronJob " ++ n), text_eq_iff] at he
  exact negative_ne_invalid e he

theorem suspended_text_not_negative (n : String) :
    ¬ NegativeDeadlineText n ("CronJob " ++ n ++ " is suspended") := by
  intro h
  have h1 := (text_eq_iff n _ _).1 h
  revert h1
  decide

theorem invalid_text_not_negative (n e : String) :
    ¬ NegativeDeadlineText n ("CronJob " ++ n ++ " has an invalid schedule: " ++ e) := by
  intro h
  unfold NegativeDeadlineText at h
  rw [String.append_assoc ("CronJob " ++ n), text_eq_iff] at h
  exact negative_ne_invalid e h.symm

/-! ## The rule evaluation of one object -/

theorem wrapInt64_of_isInt64 (x : Int) (h : isInt64 x) : wrapInt64 x = x := by
  unfold isInt64 at h
  unfold wrapInt64
  omega

theorem deadline_sign_in_range (s : Int) (hlo : -9223372036 ≤ s) (hhi : s ≤ 9223372036) :
    wrapInt64 (s * Second) < 0 ↔ s < 0 := by
  have h : isInt64 (s * Second) := by
    unfold isInt64 Second
    constructor <;> omega
  rw [wrapInt64_of_isInt64 _ h]
  unfold Second
  omega

theorem cronJobFailures_suspended (MaskString : String → String)
    (ParseStandard : String → Option String) (cronJob : CronJob)
    (h : cronJob.Spec.Suspend = some true) :
    cronJobFailures MaskString ParseStandard cronJob = [suspendedFailure MaskString cronJob] := by
  simp [cronJobFailures, suspendedFailure, h]

/-- The Failure sequence of an unsuspended object: the schedule rule, then the
deadline rule. -/
theorem cronJobFailures_unsuspended (MaskString : String → String)
    (ParseStandard : String → Option String) (cronJob : CronJob)
    (h : cronJob.Spec.Suspend ≠ some true) :
    cronJobFailures MaskString ParseStandard cronJob =
      scheduleRule MaskString ParseStandard cronJob ++ deadlineRule MaskString cronJob := by
  unfold cronJobFailures CheckCronScheduleIsValid scheduleRule deadlineRule
    invalidScheduleFailure negativeDeadlineFailure
  rw [if_neg h]
  cases ParseStandard cronJob.Spec.Schedule with
  | none =>
    cases cronJob.Spec.StartingDeadlineSeconds with
    | none => simp
    | some s => by_cases hw : wrapInt64 (s * Second) < 0 <;> simp [hw]
  | some e =>
    cases cronJob.Spec.StartingDeadlineSeconds with
    | none => simp
    | some s => by_cases hw : wrapInt64 (s * Second) < 0 <;> simp [hw]

theorem mem_scheduleRule (MaskString : String → String)
    (ParseStandard : String → Option String) (cronJob : CronJob) (f : Failure) :
    f ∈ scheduleRule MaskString ParseStandard cronJob ↔
      ∃ e, ParseStandard cronJob.Spec.Schedule = some e
        ∧ f = invalidScheduleFailure MaskString cronJob e := by
  unfold scheduleRule
  cases ParseStandard cronJob.Spec.Schedule <;> simp

theorem mem_deadlineRule (MaskString : String → String) (cronJob : CronJob) (f : Failure) :
    f ∈ deadlineRule MaskString cronJob ↔
      (∃ s, cronJob.Spec.StartingDeadlineSeconds = some s ∧ wrapInt64 (s * Second) < 0)
        ∧ f = negativeDeadlineFailure MaskString cronJob := by
  unfold deadlineRule
  cases cronJob.Spec.StartingDeadlineSeconds with
  | none => simp
  | some s => by_cases hw : wrapInt64 (s * Second) < 0 <;> simp [hw]

theorem invalidScheduleFailure_text (MaskString : String → String) (cronJob : CronJob)
    (e : String) :
    InvalidScheduleText cronJob.Name (invalidScheduleFailure MaskString cronJob e).Text
    ∧ ¬ NegativeDeadlineText cronJob.Name (invalidScheduleFailure MaskString cronJob e).Text :=
  ⟨⟨e, rfl⟩, invalid_text_not_negative cronJob.Name e⟩

theorem negativeDeadlineFailure_text (MaskString : String → String) (cronJob : CronJob) :
    NegativeDeadlineText cronJob.Name (negativeDeadlineFailure MaskString cronJob).Text
    ∧ ¬ InvalidScheduleText cronJob.Name (negativeDeadlineFailure MaskString cronJob).Text :=
  ⟨rfl, negative_text_not_invalid cronJob.Name⟩

theorem suspendedFailure_text (MaskString : String → String) (cronJob : CronJob) :
    ¬ InvalidScheduleText cronJob.Name (suspendedFailure MaskString cronJob).Text
    ∧ ¬ NegativeDeadlineText cronJob.Name (suspendedFailure MaskString cronJob).Text :=
  ⟨suspended_text_not_invalid cronJob.Name, suspended_text_not_negative cronJob.Name⟩

/-- An invalid-schedule Failure is in the sequence of an unsuspended object
exactly when the parser rejects the schedule. -/
theorem invalid_in_unsuspended (MaskString : String → String)
    (ParseStandard : String → Option String) (cronJob : CronJob)
    (h : cronJob.Spec.Suspend ≠ some true) (f : Failure)
    (hf : f ∈ cronJobFailures MaskString ParseStandard cronJob)
    (hinv : InvalidScheduleText cronJob.Name f.Text) :
    ∃ e, ParseStandard cronJob.Spec.Schedule = some e
      ∧ f = invalidScheduleFailure MaskString cronJob e := by
  rw [cronJobFailures_unsuspended MaskString ParseStandard cronJob h] at hf
  rcases List.mem_append.1 hf with hf | hf
  · exact (mem_scheduleRule MaskString ParseStandard cronJob f).1 hf
  · have h2 := ((mem_deadlineRule MaskString cronJob f).1 hf).2
    subst h2
    exact absurd hinv (negativeDeadlineFailure_text MaskString cronJob).2

/-- A negative-deadline Failure is in the sequence of an unsuspended object
exactly when the wrapped product of the deadline with `time.Second` is negative. -/
theorem negative_in_unsuspended (MaskString : String → String)
    (ParseStandard : String → Option String) (cronJob : CronJob)
    (h : cronJob.Spec.Suspend ≠ some true) (f : Failure)
    (hf : f ∈ cronJobFailures MaskString ParseStandard cronJob)
    (hneg : NegativeDeadlineText cronJob.Name f.Text) :
    (∃ s, cronJob.Spec.StartingDeadlineSeconds = some s ∧ wrapInt64 (s * Second) < 0)
      ∧ f = negativeDeadlineFailure MaskString cronJob := by
  rw [cronJobFailures_unsuspended MaskString ParseStandard cronJob h] at hf
  rcases List.mem_append.1 hf with hf | hf
  · obtain ⟨e, _, he⟩ := (mem_scheduleRule MaskString ParseStandard cronJob f).1 hf
    subst he
    exact absurd hneg (invalidScheduleFailure_text MaskString cronJob e).2
  · exact (mem_deadlineRule MaskString cronJob f).1 hf

/-! ## Maps -/

theorem mem_mapSet (m : PreAnalysisMap) (k : String) (v : PreAnalysis)
    (e : String × PreAnalysis) (h : e ∈ mapSet m k v) : e = (k, v) ∨ e ∈ m := by
  induction m with
  | nil =>
    simp only [mapSet, List.mem_singleton] at h
    exact Or.inl h
  | cons hd tl ih =>
    obtain ⟨k0, v0⟩ := hd
    simp only [mapSet] at h
    by_cases hk : k0 = k
    · simp only [hk, if_true, List.mem_cons] at h
      rcases h with h | h
      · exact Or.inl h
      · exact Or.inr (List.mem_cons_of_mem _ h)
    · simp only [hk, if_false, List.mem_cons] at h
      rcases h with h | h
      · exact Or.inr (h ▸ List.mem_cons_self _ _)
      · rcases ih h with h1 | h1
        · exact Or.inl h1
        · exact Or.inr (List.mem_cons_of_mem _ h1)

theorem mapSet_ne_nil (m : PreAnalysisMap) (k : String) (v : PreAnalysis) :
    mapSet m k v ≠ [] := by
  cases m with
  | nil => simp [mapSet]
  | cons hd tl =>
    obtain ⟨k0, v0⟩ := hd
    simp only [mapSet]
    by_cases hk : k0 = k <;> simp [hk]

theorem mem_keys_mapSet (m : PreAnalysisMap) (k : String) (v : PreAnalysis) (x : String)
    (h : x ∈ (mapSet m k v).map Prod.fst) : x = k ∨ x ∈ m.map Prod.fst := by
  obtain ⟨e, he, hx⟩ := List.mem_map.1 h
  rcases mem_mapSet m k v e he with h1 | h1
  · left; rw [← hx, h1]
  · right; exact List.mem_map.2 ⟨e, h1, hx⟩

theorem mapSet_keys_nodup (m : PreAnalysisMap) (k : String) (v : PreAnalysis)
    (h : (m.map Prod.fst).Nodup) : ((mapSet m k v).map Prod.fst).Nodup := by
  induction m with
  | nil => simp [mapSet]
  | cons hd tl ih =>
    obtain ⟨k0, v0⟩ := hd
    simp only [List.map_cons, List.nodup_cons] at h
    simp only [mapSet]
    by_cases hk : k0 = k
    · simp only [hk, if_true, List.map_cons, List.nodup_cons]
      exact ⟨hk ▸ h.1, h.2⟩
    · simp only [hk, if_false, List.map_cons, List.nodup_cons]
      refine ⟨?_, ih h.2⟩
      intro hmem
      rcases mem_keys_mapSet tl k v k0 hmem with h1 | h1
      · exact hk h1
      · exact h.1 h1

theorem mapGet_of_mem (m : PreAnalysisMap) (k : String) (v : PreAnalysis)
    (hn : (m.map Prod.fst).Nodup) (h : (k, v) ∈ m) : mapGet m k = some v := by
  induction m with
  | nil => simp at h
  | cons hd tl ih =>
    obtain ⟨k0, v0⟩ := hd
    simp only [List.map_cons, List.nodup_cons] at hn
    simp only [mapGet]
    rcases List.mem_cons.1 h with h1 | h1
    · simp only [Prod.mk.injEq] at h1
      simp [h1.1, h1.2]
    · have hne : k0 ≠ k := by
        intro hk
        exact hn.1 (List.mem_map.2 ⟨(k, v), h1, hk.symm⟩)
      simp only [hne, if_false]
      exact ih hn.2 h1

/-! ## The inner loop -/

theorem rangePreAnalysis_nil (kind : String) (results aResults : List Result) :
    rangePreAnalysis kind results [] aResults = aResults := rfl

/-- After a `range` over at least one entry, `a.Results` is `results` followed by
the Result of the entry visited last. -/
theorem rangePreAnalysis_ne_nil (kind : String) (results : List Result)
    (visited : PreAnalysisMap) (aResults : List Result) (h : visited ≠ []) :
    rangePreAnalysis kind results visited aResults =
      results ++ [{ Kind := kind, Name := (visited.getLast h).1,
                    Error := (visited.getLast h).2.FailureDetails }] := by
  induction visited generalizing aResults with
  | nil => exact absurd rfl h
  | cons hd tl ih =>
    cases tl with
    | nil => rfl
    | cons hd2 tl2 =>
      have h2 : hd2 :: tl2 ≠ [] := List.cons_ne_nil _ _
      have := ih (results ++ [{ Kind := kind, Name := hd.1, Error := hd.2.FailureDetails }]) h2
      simp only [rangePreAnalysis, List.foldl_cons] at this ⊢
      rw [this]
      rfl

/-! ## The outer loop -/

theorem rangeOrder_nil (rangeOrder : RangeOrder) (hv : ValidRangeOrder rangeOrder)
    (i : Nat) : rangeOrder i [] = [] :=
  List.Perm.eq_nil (hv i [])

theorem rangeOrder_ne_nil (rangeOrder : RangeOrder) (hv : ValidRangeOrder rangeOrder)
    (i : Nat) (m : PreAnalysisMap) (h : m ≠ []) : rangeOrder i m ≠ [] := by
  intro h0
  have hp := hv i m
  rw [h0] at hp
  exact h (List.Perm.eq_nil hp.symm)

/-- The `range` of iteration `i` over a non-empty map leaves in `a.Results`
the Result of one entry of the map, after `results`. -/
theorem range_assigns (rangeOrder : RangeOrder) (hv : ValidRangeOrder rangeOrder)
    (kind : String) (results aResults : List Result) (i : Nat) (m : PreAnalysisMap)
    (h : m ≠ []) :
    ∃ e ∈ m, rangePreAnalysis kind results (rangeOrder i m) aResults =
      results ++ [{ Kind := kind, Name := e.1, Error := e.2.FailureDetails }] := by
  have hne := rangeOrder_ne_nil rangeOrder hv i m h
  exact ⟨(rangeOrder i m).getLast hne,
    (hv i m).subset (List.getLast_mem hne),
    rangePreAnalysis_ne_nil kind results (rangeOrder i m) aResults hne⟩

theorem loopInv_step (MaskString : String → String) (ParseStandard : String → Option String)
    (rangeOrder : RangeOrder) (hv : ValidRangeOrder rangeOrder)
    (kind : String) (results a0 : List Result) (done : List CronJob) (i : Nat)
    (st : LoopState) (cronJob : CronJob)
    (inv : LoopInv MaskString ParseStandard kind results a0 done st) :
    LoopInv MaskString ParseStandard kind results a0 (done ++ [cronJob])
      (analyzeItem MaskString ParseStandard rangeOrder kind results i st cronJob) := by
  by_cases hfail : cronJobFailures MaskString ParseStandard cronJob = []
  · -- no Failure: the map is unchanged
    have hst : analyzeItem MaskString ParseStandard rangeOrder kind results i st cronJob =
        { st with aResults :=
            rangePreAnalysis kind results (rangeOrder i st.preAnalysis) st.aResults } := by
      simp [analyzeItem, hfail]
    rw [hst]
    refine ⟨inv.keys, ?_, ?_, ?_, ?_⟩
    · intro e he
      obtain ⟨cj, hcj, h1⟩ := inv.entries e he
      exact ⟨cj, List.mem_append_left _ hcj, h1⟩
    · intro cj hcj hne
      rcases List.mem_append.1 hcj with h1 | h1
      · exact inv.covered cj h1 hne
      · rw [List.mem_singleton] at h1
        rw [h1] at hne
        exact absurd hfail hne
    · intro hnil
      have hnil2 : st.preAnalysis = [] := hnil
      show rangePreAnalysis kind results (rangeOrder i st.preAnalysis) st.aResults = a0
      rw [hnil2, rangeOrder_nil rangeOrder hv i, rangePreAnalysis_nil]
      exact inv.untouched hnil2
    · intro hne
      exact range_assigns rangeOrder hv kind results st.aResults i st.preAnalysis hne
  · -- at least one Failure: the map gets the entry of this object
    have hlen : (cronJobFailures MaskString ParseStandard cronJob).length > 0 :=
      List.length_pos.2 hfail
    have hst : analyzeItem MaskString ParseStandard rangeOrder kind results i st cronJob =
        { preAnalysis := mapSet st.preAnalysis (objectKey cronJob)
            { FailureDetails := cronJobFailures MaskString ParseStandard cronJob },
          aResults := rangePreAnalysis kind results
            (rangeOrder i (mapSet st.preAnalysis (objectKey cronJob)
              { FailureDetails := cronJobFailures MaskString ParseStandard cronJob }))
            st.aResults,
          metricCalls := st.metricCalls ++
            [MetricCall.Set [kind, cronJob.Name, cronJob.Namespace]
              (cronJobFailures MaskString ParseStandard cronJob).length] } := by
      simp [analyzeItem, hlen]
    rw [hst]
    refine ⟨mapSet_keys_nodup _ _ _ inv.keys, ?_, ?_, ?_, ?_⟩
    · intro e he
      rcases mem_mapSet _ _ _ e he with h1 | h1
      · exact ⟨cronJob, List.mem_append_right _ (List.mem_singleton_self _),
          by rw [h1], by rw [h1], hfail⟩
      · obtain ⟨cj, hcj, h2⟩ := inv.entries e h1
        exact ⟨cj, List.mem_append_left _ hcj, h2⟩
    · intro _ _ _
      exact mapSet_ne_nil _ _ _
    · intro hnil
      exact absurd hnil (mapSet_ne_nil _ _ _)
    · intro hne
      exact range_assigns rangeOrder hv kind results st.aResults i _ hne

theorem loopInv_loop (MaskString : String → String) (ParseStandard : String → Option String)
    (rangeOrder : RangeOrder) (hv : ValidRangeOrder rangeOrder)
    (kind : String) (results a0 : List Result) (items : List CronJob) :
    ∀ (done : List CronJob) (i : Nat) (st : LoopState),
      LoopInv MaskString ParseStandard kind results a0 done st →
      LoopInv MaskString ParseStandard kind results a0 (done ++ items)
        (analyzeLoop MaskString ParseStandard rangeOrder kind results i items st) := by
  induction items with
  | nil =>
    intro done i st inv
    simpa [analyzeLoop] using inv
  | cons cj rest ih =>
    intro done i st inv
    have h1 := loopInv_step MaskString ParseStandard rangeOrder hv kind results a0 done i st cj inv
    have h2 := ih (done ++ [cj]) (i + 1) _ h1
    simpa [analyzeLoop, List.append_assoc] using h2

theorem loopInv_start (MaskString : String → String) (ParseStandard : String → Option String)
    (a : Analyzer) :
    LoopInv MaskString ParseStandard "CronJob" [] a.Results [] (loopStart a) :=
  ⟨by simp [loopStart], by simp [loopStart], by simp, fun _ => rfl,
    fun h => absurd rfl h⟩

theorem loopInv_end (MaskString : String → String) (ParseStandard : String → Option String)
    (rangeOrder : RangeOrder) (hv : ValidRangeOrder rangeOrder) (a : Analyzer)
    (items : List CronJob) :
    LoopInv MaskString ParseStandard "CronJob" [] a.Results items
      (loopEnd MaskString ParseStandard rangeOrder a items) := by
  have h := loopInv_loop MaskString ParseStandard rangeOrder hv "CronJob" [] a.Results items
    [] 0 (loopStart a) (loopInv_start MaskString ParseStandard a)
  simpa [loopEnd] using h

theorem Analyze_ok (MaskString : String → String) (ParseStandard : String → Option String)
    (rangeOrder : RangeOrder) (a : Analyzer) (items : List CronJob)
    (hlist : a.Client.ListCronJobs a.Namespace = Except.ok items) :
    Analyze MaskString ParseStandard rangeOrder a =
      { results := (loopEnd MaskString ParseStandard rangeOrder a items).aResults,
        err := none,
        metricCalls := (loopEnd MaskString ParseStandard rangeOrder a items).metricCalls } := by
  simp [Analyze, hlist, loopEnd, loopStart]

theorem Analyze_error (MaskString : String → String) (ParseStandard : String → Option String)
    (rangeOrder : RangeOrder) (a : Analyzer) (e : String)
    (hlist : a.Client.ListCronJobs a.Namespace = Except.error e) :
    Analyze MaskString ParseStandard rangeOrder a =
      { results := [], err := some e,
        metricCalls := [MetricCall.DeletePartialMatch [("analyzer_name", "CronJob")]] } := by
  simp [Analyze, hlist]

theorem storedOrder_valid : ValidRangeOrder storedOrder :=
  fun _ m => List.Perm.refl m

theorem reversedOrder_valid : ValidRangeOrder reversedOrder :=
  fun _ m => List.reverse_perm m

/-- Where a returned Result comes from: the incoming accumulator, or one listed
object with at least one Failure. -/
theorem results_origin (MaskString : String → String) (ParseStandard : String → Option String)
    (rangeOrder : RangeOrder) (hv : ValidRangeOrder rangeOrder) (a : Analyzer)
    (items : List CronJob)
    (hlist : a.Client.ListCronJobs a.Namespace = Except.ok items) (r : Result)
    (hr : r ∈ (Analyze MaskString ParseStandard rangeOrder a).results) :
    r ∈ a.Results ∨ ∃ cj ∈ items, cronJobFailures MaskString ParseStandard cj ≠ []
      ∧ r = { Kind := "CronJob", Name := objectKey cj,
              Error := cronJobFailures MaskString ParseStandard cj } := by
  rw [Analyze_ok MaskString ParseStandard rangeOrder a items hlist] at hr
  have inv := loopInv_end MaskString ParseStandard rangeOrder hv a items
  by_cases hnil : (loopEnd MaskString ParseStandard rangeOrder a items).preAnalysis = []
  · left
    have := inv.untouched hnil
    simp only at hr
    rw [this] at hr
    exact hr
  · right
    obtain ⟨e, he, hres⟩ := inv.assigned hnil
    obtain ⟨cj, hcj, hk, hf, hne⟩ := inv.entries e he
    simp only at hr
    rw [hres, List.nil_append, List.mem_singleton] at hr
    exact ⟨cj, hcj, hne, by rw [hr, hk, hf]⟩

/-- With a failing object in the listing, the returned sequence is the Result of
one entry of the final map. -/
theorem results_of_failing (MaskString : String → String)
    (ParseStandard : String → Option String)
    (rangeOrder : RangeOrder) (hv : ValidRangeOrder rangeOrder) (a : Analyzer)
    (items : List CronJob)
    (hlist : a.Client.ListCronJobs a.Namespace = Except.ok items)
    (hfail : ∃ cj ∈ items, cronJobFailures MaskString ParseStandard cj ≠ []) :
    ∃ k f, (Analyze MaskString ParseStandard rangeOrder a).results =
        [{ Kind := "CronJob", Name := k, Error := f }]
      ∧ mapGet (loopEnd MaskString ParseStandard rangeOrder a items).preAnalysis k
          = some { FailureDetails := f }
      ∧ ∃ cj ∈ items, objectKey cj = k
          ∧ cronJobFailures MaskString ParseStandard cj = f ∧ f ≠ [] := by
  rw [Analyze_ok MaskString ParseStandard rangeOrder a items hlist]
  have inv := loopInv_end MaskString ParseStandard rangeOrder hv a items
  obtain ⟨cj0, hcj0, hne0⟩ := hfail
  have hmap := inv.covered cj0 hcj0 hne0
  obtain ⟨e, he, hres⟩ := inv.assigned hmap
  obtain ⟨cj, hcj, hk, hf, hne⟩ := inv.entries e he
  refine ⟨e.1, e.2.FailureDetails, by simpa using hres, ?_, cj, hcj, hk, hf.symm, ?_⟩
  · exact mapGet_of_mem _ e.1 e.2 inv.keys he
  · rw [hf]; exact hne

/-- With no failing object in the listing, the returned sequence is the incoming
accumulator. -/
theorem results_of_healthy (MaskString : String → String)
    (ParseStandard : String → Option String)
    (rangeOrder : RangeOrder) (hv : ValidRangeOrder rangeOrder) (a : Analyzer)
    (items : List CronJob)
    (hlist : a.Client.ListCronJobs a.Namespace = Except.ok items)
    (hok : ∀ cj ∈ items, cronJobFailures MaskString ParseStandard cj = []) :
    (Analyze MaskString ParseStandard rangeOrder a).results = a.Results := by
  rw [Analyze_ok MaskString ParseStandard rangeOrder a items hlist]
  have inv := loopInv_end MaskString ParseStandard rangeOrder hv a items
  apply inv.untouched
  by_contra hne
  obtain ⟨e, he⟩ := List.exists_mem_of_ne_nil _ hne
  obtain ⟨cj, hcj, _, _, hf⟩ := inv.entries e he
  exact hf (hok cj hcj)

/-! ## The filter list command -/

theorem SliceDiff_foldl (dest : List String) (source acc : List String) :
    source.foldl (fun diff x => if dest.contains x then diff else diff ++ [x]) acc =
      acc ++ source.filter (fun x => decide (x ∉ dest)) := by
  induction source generalizing acc with
  | nil => simp
  | cons x xs ih =>
    rw [List.foldl_cons, ih]
    by_cases hx : x ∈ dest
    · simp [hx]
    · simp [hx]

theorem SliceDiff_eq_filter (source dest : List String) :
    SliceDiff source dest = source.filter (fun x => decide (x ∉ dest)) := by
  unfold SliceDiff
  rw [SliceDiff_foldl]
  rfl

/-! ## Claims on the rule evaluation -/

/-- C2: a CronJob whose `Spec.Suspend` is non-nil and true gets exactly one
Failure, with text `CronJob <name> is suspended`; its Failure sequence holds no
invalid-schedule Failure and no negative-starting-deadline Failure, whatever
its schedule string and starting deadline are. -/
theorem suspended_single_failure (MaskString : String → String)
    (ParseStandard : String → Option String) (cronJob : CronJob)
    (h : cronJob.Spec.Suspend = some true) :
    cronJobFailures MaskString ParseStandard cronJob = [suspendedFailure MaskString cronJob]
    ∧ (suspendedFailure MaskString cronJob).Text = "CronJob " ++ cronJob.Name ++ " is suspended"
    ∧ (cronJobFailures MaskString ParseStandard cronJob).length = 1
    ∧ (∀ f ∈ cronJobFailures MaskString ParseStandard cronJob,
        ¬ InvalidScheduleText cronJob.Name f.Text)
    ∧ (∀ f ∈ cronJobFailures MaskString ParseStandard cronJob,
        ¬ NegativeDeadlineText cronJob.Name f.Text) := by
  rw [cronJobFailures_suspended MaskString ParseStandard cronJob h]
  refine ⟨rfl, rfl, rfl, ?_, ?_⟩
  · intro f hf
    rw [List.mem_singleton] at hf
    subst hf
    exact (suspendedFailure_text MaskString cronJob).1
  · intro f hf
    rw [List.mem_singleton] at hf
    subst hf
    exact (suspendedFailure_text MaskString cronJob).2

/-- C2, at the suspended CronJob `batch/nightly`, whose schedule the
five-field parser rejects and whose starting deadline is negative. -/
theorem suspended_single_failure_witness :
    nightly.Spec.Suspend = some true
    ∧ fiveFieldParser nightly.Spec.Schedule ≠ none
    ∧ cronJobFailures starMask fiveFieldParser nightly =
        [{ Text := "CronJob nightly is suspended",
           Sensitive := [{ Unmasked := "batch", Masked := "*****" },
                         { Unmasked := "nightly", Masked := "*******" }] }] :=
  ⟨rfl, by decide,
    (suspended_single_failure starMask fiveFieldParser nightly rfl).1.trans (by decide)⟩

/-- C3: `CheckCronScheduleIsValid` returns `(true, nil)` exactly when the parser
accepts the schedule and `(false, e)` exactly when the parser rejects it with
`e`. For an unsuspended CronJob, the Failure sequence holds an invalid-schedule
Failure exactly when the check returns an error `e`; that Failure is then the
one with text `CronJob <name> has an invalid schedule: ` followed by `e`; an
accepted schedule gives no such Failure. For `ops/backup` with schedule `* * *`
and no deadline, under any parser that rejects `* * *`, the invalid-schedule
Failure is the only Failure. -/
theorem invalid_schedule_rule (MaskString : String → String)
    (ParseStandard : String → Option String) (cronJob : CronJob)
    (h : cronJob.Spec.Suspend ≠ some true) :
    (∀ schedule,
      (CheckCronScheduleIsValid ParseStandard schedule = (true, none)
        ↔ ParseStandard schedule = none)
      ∧ ∀ e, (CheckCronScheduleIsValid ParseStandard schedule = (false, some e)
        ↔ ParseStandard schedule = some e))
    ∧ ((∃ f ∈ cronJobFailures MaskString ParseStandard cronJob,
          InvalidScheduleText cronJob.Name f.Text)
        ↔ ∃ e, (CheckCronScheduleIsValid ParseStandard cronJob.Spec.Schedule).2 = some e)
    ∧ (∀ e, (CheckCronScheduleIsValid ParseStandard cronJob.Spec.Schedule).2 = some e →
        invalidScheduleFailure MaskString cronJob e
          ∈ cronJobFailures MaskString ParseStandard cronJob
        ∧ (invalidScheduleFailure MaskString cronJob e).Text
            = "CronJob " ++ cronJob.Name ++ " has an invalid schedule: " ++ e
        ∧ ∀ f ∈ cronJobFailures MaskString ParseStandard cronJob,
            InvalidScheduleText cronJob.Name f.Text →
            f = invalidScheduleFailure MaskString cronJob e)
    ∧ (ParseStandard cronJob.Spec.Schedule = none →
        ∀ f ∈ cronJobFailures MaskString ParseStandard cronJob,
          ¬ InvalidScheduleText cronJob.Name f.Text)
    ∧ (∀ e suspend, suspend ≠ some true → ParseStandard "* * *" = some e →
        cronJobFailures MaskString ParseStandard
          { Namespace := "ops", Name := "backup",
            Spec := { Schedule := "* * *", Suspend := suspend,
                      StartingDeadlineSeconds := none } } =
          [{ Text := "CronJob backup has an invalid schedule: " ++ e,
             Sensitive := [{ Unmasked := "ops", Masked := MaskString "ops" },
                           { Unmasked := "backup", Masked := MaskString "backup" }] }]) := by
  have hcheck : ∀ schedule e,
      (CheckCronScheduleIsValid ParseStandard schedule).2 = some e
        ↔ ParseStandard schedule = some e := by
    intro schedule e
    unfold CheckCronScheduleIsValid
    cases ParseStandard schedule <;> simp
  refine ⟨?_, ?_, ?_, ?_, ?_⟩
  · intro schedule
    unfold CheckCronScheduleIsValid
    cases ParseStandard schedule <;> simp
  · constructor
    · rintro ⟨f, hf, hinv⟩
      obtain ⟨e, he, _⟩ := invalid_in_unsuspended MaskString ParseStandard cronJob h f hf hinv
      exact ⟨e, (hcheck _ e).2 he⟩
    · rintro ⟨e, he⟩
      refine ⟨invalidScheduleFailure MaskString cronJob e, ?_,
        (invalidScheduleFailure_text MaskString cronJob e).1⟩
      rw [cronJobFailures_unsuspended MaskString ParseStandard cronJob h]
      exact List.mem_append_left _
        ((mem_scheduleRule MaskString ParseStandard cronJob _).2 ⟨e, (hcheck _ e).1 he, rfl⟩)
  · intro e he
    have hp := (hcheck _ e).1 he
    refine ⟨?_, rfl, ?_⟩
    · rw [cronJobFailures_unsuspended MaskString ParseStandard cronJob h]
      exact List.mem_append_left _
        ((mem_scheduleRule MaskString ParseStandard cronJob _).2 ⟨e, hp, rfl⟩)
    · intro f hf hinv
      obtain ⟨e1, he1, hfe⟩ :=
        invalid_in_unsuspended MaskString ParseStandard cronJob h f hf hinv
      rw [hp] at he1
      simp only [Option.some.injEq] at he1
      rw [hfe, he1]
  · intro hp f hf hinv
    obtain ⟨e, he, _⟩ := invalid_in_unsuspended MaskString ParseStandard cronJob h f hf hinv
    rw [hp] at he
    simp at he
  · intro e suspend hs hp
    rw [cronJobFailures_unsuspended MaskString ParseStandard _ hs]
    simp [scheduleRule, deadlineRule, invalidScheduleFailure, hp]

/-- C3, at `ops/backup` (schedule `* * *`, not suspended, no deadline) with the
five-field parser: one Failure, the invalid-schedule one. -/
theorem invalid_schedule_rule_witness :
    backup.Spec.Suspend ≠ some true
    ∧ fiveFieldParser "* * *" = some "expected exactly 5 fields"
    ∧ cronJobFailures starMask fiveFieldParser backup =
        [{ Text := "CronJob backup has an invalid schedule: expected exactly 5 fields",
           Sensitive := [{ Unmasked := "ops", Masked := "***" },
                         { Unmasked := "backup", Masked := "******" }] }] :=
  ⟨by decide, by decide,
    ((invalid_schedule_rule starMask fiveFieldParser backup (by decide)).2.2.2.2
      "expected exactly 5 fields" (some false) (by decide) (by decide)).trans (by decide)⟩

/-- C4, as stated, fails: the suspended CronJob `batch/paused` has the negative
deadline -1 and no negative-starting-deadline Failure; `ops/far` has a
non-negative deadline and the Failure; `ops/past` has a negative deadline and
no such Failure. All three deadlines are `int64` values. -/
theorem negative_deadline_claim_fails :
    (isInt64 (-1)
      ∧ paused.Spec.StartingDeadlineSeconds = some (-1)
      ∧ ∀ f ∈ cronJobFailures starMask fiveFieldParser paused,
          ¬ NegativeDeadlineText paused.Name f.Text)
    ∧ (isInt64 9223372037
      ∧ far.Spec.StartingDeadlineSeconds = some 9223372037
      ∧ ∃ f ∈ cronJobFailures starMask fiveFieldParser far,
          NegativeDeadlineText far.Name f.Text)
    ∧ (isInt64 (-9223372037)
      ∧ past.Spec.StartingDeadlineSeconds = some (-9223372037)
      ∧ ∀ f ∈ cronJobFailures starMask fiveFieldParser past,
          ¬ NegativeDeadlineText past.Name f.Text) := by
  refine ⟨⟨by decide, rfl, by decide⟩, ⟨by decide, rfl, by decide⟩,
    ⟨by decide, rfl, by decide⟩⟩

/-- C4, amended: for a CronJob whose starting deadline is nil or a value `s` with
`-9223372036 ≤ s ≤ 9223372036` (the product `s * time.Second` fits an `int64`),
the Failure `CronJob <name> has a negative starting deadline` is produced
exactly when the CronJob is not suspended and `s` is negative; a suspended
CronJob, a nil deadline and a non-negative deadline never produce it. -/
theorem negative_deadline_rule (MaskString : String → String)
    (ParseStandard : String → Option String) (cronJob : CronJob)
    (hrange : ∀ s, cronJob.Spec.StartingDeadlineSeconds = some s →
      -9223372036 ≤ s ∧ s ≤ 9223372036) :
    ((∃ f ∈ cronJobFailures MaskString ParseStandard cronJob,
        NegativeDeadlineText cronJob.Name f.Text)
      ↔ (cronJob.Spec.Suspend ≠ some true
          ∧ ∃ s, cronJob.Spec.StartingDeadlineSeconds = some s ∧ s < 0))
    ∧ ((cronJob.Spec.Suspend ≠ some true
          ∧ ∃ s, cronJob.Spec.StartingDeadlineSeconds = some s ∧ s < 0) →
        negativeDeadlineFailure MaskString cronJob
          ∈ cronJobFailures MaskString ParseStandard cronJob)
    ∧ (negativeDeadlineFailure MaskString cronJob).Text
        = "CronJob " ++ cronJob.Name ++ " has a negative starting deadline" := by
  have hmem : (cronJob.Spec.Suspend ≠ some true
      ∧ ∃ s, cronJob.Spec.StartingDeadlineSeconds = some s ∧ s < 0) →
      negativeDeadlineFailure MaskString cronJob
        ∈ cronJobFailures MaskString ParseStandard cronJob := by
    rintro ⟨hsusp, s, hs, hneg⟩
    rw [cronJobFailures_unsuspended MaskString ParseStandard cronJob hsusp]
    have hr := hrange s hs
    exact List.mem_append_right _
      ((mem_deadlineRule MaskString cronJob _).2
        ⟨⟨s, hs, (deadline_sign_in_range s hr.1 hr.2).2 hneg⟩, rfl⟩)
  refine ⟨⟨?_, fun h => ⟨_, hmem h, rfl⟩⟩, hmem, rfl⟩
  rintro ⟨f, hf, hneg⟩
  by_cases hsusp : cronJob.Spec.Suspend = some true
  · rw [cronJobFailures_suspended MaskString ParseStandard cronJob hsusp,
      List.mem_singleton] at hf
    subst hf
    exact absurd hneg (suspendedFailure_text MaskString cronJob).2
  · obtain ⟨⟨s, hs, hw⟩, _⟩ :=
      negative_in_unsuspended MaskString ParseStandard cronJob hsusp f hf hneg
    have hr := hrange s hs
    exact ⟨hsusp, s, hs, (deadline_sign_in_range s hr.1 hr.2).1 hw⟩

/-- C4 amended, at the unsuspended CronJob `ops/late` with deadline -1: the
Failure is produced. -/
theorem negative_deadline_rule_witness :
    (∀ s, late.Spec.StartingDeadlineSeconds = some s → -9223372036 ≤ s ∧ s ≤ 9223372036)
    ∧ ∃ f ∈ cronJobFailures starMask fiveFieldParser late,
        NegativeDeadlineText late.Name f.Text :=
  have hr : ∀ s, late.Spec.StartingDeadlineSeconds = some s →
      -9223372036 ≤ s ∧ s ≤ 9223372036 := by
    intro s hs
    have : s = -1 := by
      simp only [late, Option.some.injEq] at hs
      exact hs.symm
    subst this
    decide
  ⟨hr, (negative_deadline_rule starMask fiveFieldParser late hr).1.2
    ⟨by decide, -1, rfl, by decide⟩⟩

/-- C7: every Failure of the rule evaluation of an object with namespace `ns`
and name `n` is the suspended, an invalid-schedule or the negative-deadline
Failure of that object, and its Sensitive sequence holds the pair of `ns` with
`MaskString(ns)` and the pair of `n` with `MaskString(n)`. The same holds of
every Failure of a Result that `Analyze` returns and did not find in the
incoming accumulator, for a listed object whose key names that Result. -/
theorem failure_records_sensitive_pairs (MaskString : String → String)
    (ParseStandard : String → Option String) :
    (∀ cronJob : CronJob, ∀ f ∈ cronJobFailures MaskString ParseStandard cronJob,
      ({ Unmasked := cronJob.Namespace, Masked := MaskString cronJob.Namespace } : Sensitive)
          ∈ f.Sensitive
      ∧ ({ Unmasked := cronJob.Name, Masked := MaskString cronJob.Name } : Sensitive)
          ∈ f.Sensitive
      ∧ (f.Text = "CronJob " ++ cronJob.Name ++ " is suspended"
          ∨ (∃ e, f.Text = "CronJob " ++ cronJob.Name ++ " has an invalid schedule: " ++ e)
          ∨ f.Text = "CronJob " ++ cronJob.Name ++ " has a negative starting deadline"))
    ∧ (∀ (rangeOrder : RangeOrder) (a : Analyzer) (items : List CronJob),
        ValidRangeOrder rangeOrder →
        a.Client.ListCronJobs a.Namespace = Except.ok items →
        ∀ r ∈ (Analyze MaskString ParseStandard rangeOrder a).results, r ∉ a.Results →
          ∃ cronJob ∈ items, r.Name = objectKey cronJob ∧ ∀ f ∈ r.Error,
            ({ Unmasked := cronJob.Namespace,
               Masked := MaskString cronJob.Namespace } : Sensitive) ∈ f.Sensitive
            ∧ ({ Unmasked := cronJob.Name,
                 Masked := MaskString cronJob.Name } : Sensitive) ∈ f.Sensitive) := by
  have hrule : ∀ cronJob : CronJob, ∀ f ∈ cronJobFailures MaskString ParseStandard cronJob,
      ({ Unmasked := cronJob.Namespace, Masked := MaskString cronJob.Namespace } : Sensitive)
          ∈ f.Sensitive
      ∧ ({ Unmasked := cronJob.Name, Masked := MaskString cronJob.Name } : Sensitive)
          ∈ f.Sensitive
      ∧ (f.Text = "CronJob " ++ cronJob.Name ++ " is suspended"
          ∨ (∃ e, f.Text = "CronJob " ++ cronJob.Name ++ " has an invalid schedule: " ++ e)
          ∨ f.Text = "CronJob " ++ cronJob.Name ++ " has a negative starting deadline") := by
    intro cronJob f hf
    by_cases hsusp : cronJob.Spec.Suspend = some true
    · rw [cronJobFailures_suspended MaskString ParseStandard cronJob hsusp,
        List.mem_singleton] at hf
      subst hf
      simp [suspendedFailure]
    · rw [cronJobFailures_unsuspended MaskString ParseStandard cronJob hsusp] at hf
      rcases List.mem_append.1 hf with h | h
      · obtain ⟨e, _, he⟩ := (mem_scheduleRule MaskString ParseStandard cronJob f).1 h
        subst he
        exact ⟨by simp [invalidScheduleFailure], by simp [invalidScheduleFailure],
          Or.inr (Or.inl ⟨e, rfl⟩)⟩
      · have he := ((mem_deadlineRule MaskString cronJob f).1 h).2
        subst he
        exact ⟨by simp [negativeDeadlineFailure], by simp [negativeDeadlineFailure],
          Or.inr (Or.inr rfl)⟩
  refine ⟨hrule, ?_⟩
  intro rangeOrder a items hv hlist r hr hnot
  rcases results_origin MaskString ParseStandard rangeOrder hv a items hlist r hr with
    h | ⟨cj, hcj, _, hreq⟩
  · exact absurd h hnot
  · refine ⟨cj, hcj, by rw [hreq], ?_⟩
    intro f hf
    rw [hreq] at hf
    exact ⟨(hrule cj f hf).1, (hrule cj f hf).2.1⟩

/-- C7, at the Failure of the suspended CronJob `batch/nightly`. -/
theorem failure_records_sensitive_pairs_witness :
    suspendedFailure starMask nightly ∈ cronJobFailures starMask fiveFieldParser nightly
    ∧ ({ Unmasked := "batch", Masked := "*****" } : Sensitive)
        ∈ (suspendedFailure starMask nightly).Sensitive
    ∧ ({ Unmasked := "nightly", Masked := "*******" } : Sensitive)
        ∈ (suspendedFailure starMask nightly).Sensitive :=
  have hf : suspendedFailure starMask nightly
      ∈ cronJobFailures starMask fiveFieldParser nightly := by decide
  have h := (failure_records_sensitive_pairs starMask fiveFieldParser).1 nightly _ hf
  ⟨hf, h.1, h.2.1⟩

/-! ## Claims on `Analyze` -/

/-- C1, evaluated on a listing of two objects with distinct keys and one Failure
each (`ops/backup`, `batch/nightly`), with an empty accumulator: `Analyze`
returns one Result, not two; visiting the map as stored it is the Result of
`batch/nightly`, visiting it in reverse the Result of `ops/backup`. -/
theorem two_failing_objects_one_result :
    twoFailing.Client.ListCronJobs twoFailing.Namespace = Except.ok [backup, nightly]
    ∧ objectKey backup ≠ objectKey nightly
    ∧ cronJobFailures starMask fiveFieldParser backup ≠ []
    ∧ cronJobFailures starMask fiveFieldParser nightly ≠ []
    ∧ (Analyze starMask fiveFieldParser storedOrder twoFailing).results =
        [{ Kind := "CronJob", Name := "batch/nightly",
           Error := cronJobFailures starMask fiveFieldParser nightly }]
    ∧ (Analyze starMask fiveFieldParser reversedOrder twoFailing).results =
        [{ Kind := "CronJob", Name := "ops/backup",
           Error := cronJobFailures starMask fiveFieldParser backup }]
    ∧ (Analyze starMask fiveFieldParser storedOrder twoFailing).results.length ≠ 2
    ∧ (Analyze starMask fiveFieldParser reversedOrder twoFailing).results.length ≠ 2 := by
  refine ⟨rfl, by decide, by decide, by decide, by decide, by decide, by decide, by decide⟩

/-- C5, as stated, fails: with the healthy object `ops/ok` as the whole listing
and an accumulator holding a Result named `ops/ok` with no Failure, `Analyze`
returns that Result: its Error is empty and it is keyed by a listed object for
which no rule triggered. -/
theorem empty_error_result_returned :
    ValidRangeOrder storedOrder
    ∧ staleAccumulator.Client.ListCronJobs staleAccumulator.Namespace = Except.ok [healthy]
    ∧ cronJobFailures starMask fiveFieldParser healthy = []
    ∧ ∃ r ∈ (Analyze starMask fiveFieldParser storedOrder staleAccumulator).results,
        r.Error = [] ∧ r.Name = objectKey healthy := by
  refine ⟨storedOrder_valid, rfl, by decide, ?_⟩
  exact ⟨{ Kind := "Pod", Name := "ops/ok", Error := [] }, by decide, rfl, by decide⟩

/-- C5, amended: on a successful listing every returned Result is an element of
the incoming accumulator or the Result of a listed object with at least one
Failure (kind `CronJob`, its key, its non-empty Failure sequence). Hence, when
every Result of the incoming accumulator has a non-empty Error, so has every
returned Result; and when the listed keys are pairwise distinct, a returned
Result that is not in the incoming accumulator is not keyed by a listed object
for which no rule triggered. -/
theorem returned_results_nonempty (MaskString : String → String)
    (ParseStandard : String → Option String)
    (rangeOrder : RangeOrder) (hv : ValidRangeOrder rangeOrder) (a : Analyzer)
    (items : List CronJob)
    (hlist : a.Client.ListCronJobs a.Namespace = Except.ok items) :
    (∀ r ∈ (Analyze MaskString ParseStandard rangeOrder a).results,
      r ∈ a.Results ∨ ∃ cj ∈ items, cronJobFailures MaskString ParseStandard cj ≠ []
        ∧ r = { Kind := "CronJob", Name := objectKey cj,
                Error := cronJobFailures MaskString ParseStandard cj })
    ∧ ((∀ r ∈ a.Results, r.Error ≠ []) →
        ∀ r ∈ (Analyze MaskString ParseStandard rangeOrder a).results, r.Error ≠ [])
    ∧ ((items.map objectKey).Nodup →
        ∀ r ∈ (Analyze MaskString ParseStandard rangeOrder a).results, r ∉ a.Results →
          ∀ cj ∈ items, cronJobFailures MaskString ParseStandard cj = [] →
            r.Name ≠ objectKey cj) := by
  have horigin := results_origin MaskString ParseStandard rangeOrder hv a items hlist
  refine ⟨horigin, ?_, ?_⟩
  · intro hacc r hr
    rcases horigin r hr with h | ⟨cj, _, hne, hreq⟩
    · exact hacc r h
    · rw [hreq]; exact hne
  · intro hnodup r hr hnot cj hcj hnil hname
    rcases horigin r hr with h | ⟨cj0, hcj0, hne, hreq⟩
    · exact hnot h
    · rw [hreq] at hname
      have heq : cj0 = cj := List.inj_on_of_nodup_map hnodup hcj0 hcj hname
      rw [heq] at hne
      exact hne hnil

/-- C5 amended, at the listing of `ops/backup` and `batch/nightly` with an empty
accumulator: the returned Result has a non-empty Error. -/
theorem returned_results_nonempty_witness :
    ValidRangeOrder storedOrder
    ∧ (∀ r ∈ twoFailing.Results, r.Error ≠ [])
    ∧ ∀ r ∈ (Analyze starMask fiveFieldParser storedOrder twoFailing).results,
        r.Error ≠ [] :=
  have hacc : ∀ r ∈ twoFailing.Results, r.Error ≠ [] := by decide
  ⟨storedOrder_valid, hacc,
    (returned_results_nonempty starMask fiveFieldParser storedOrder storedOrder_valid
      twoFailing [backup, nightly] rfl).2.1 hacc⟩

/-- C6: when the listing call returns an error `e`, `Analyze` returns `e` with an
empty result sequence, whatever the accumulator holds; its only call on the
gauge vector is the `DeletePartialMatch` that precedes the listing, and its
output does not depend on the masking function, the parser or the range order,
which only the rule evaluation uses. When the listing succeeds the error is nil. -/
theorem listing_error_returned (MaskString : String → String)
    (ParseStandard : String → Option String) (rangeOrder : RangeOrder) (a : Analyzer) :
    (∀ e, a.Client.ListCronJobs a.Namespace = Except.error e →
      (Analyze MaskString ParseStandard rangeOrder a).results = []
      ∧ (Analyze MaskString ParseStandard rangeOrder a).err = some e
      ∧ (Analyze MaskString ParseStandard rangeOrder a).metricCalls =
          [MetricCall.DeletePartialMatch [("analyzer_name", "CronJob")]]
      ∧ ∀ (MaskString2 : String → String) (ParseStandard2 : String → Option String)
          (rangeOrder2 : RangeOrder),
          Analyze MaskString2 ParseStandard2 rangeOrder2 a =
            Analyze MaskString ParseStandard rangeOrder a)
    ∧ (∀ items, a.Client.ListCronJobs a.Namespace = Except.ok items →
        (Analyze MaskString ParseStandard rangeOrder a).err = none) := by
  constructor
  · intro e he
    rw [Analyze_error MaskString ParseStandard rangeOrder a e he]
    refine ⟨rfl, rfl, rfl, ?_⟩
    intro M2 P2 o2
    exact Analyze_error M2 P2 o2 a e he
  · intro items hitems
    rw [Analyze_ok MaskString ParseStandard rangeOrder a items hitems]

/-- C6, at a context whose listing fails with `connection refused` and whose
accumulator is not empty. -/
theorem listing_error_returned_witness :
    unreachable.Results ≠ []
    ∧ (Analyze starMask fiveFieldParser storedOrder unreachable).results = []
    ∧ (Analyze starMask fiveFieldParser storedOrder unreachable).err
        = some "connection refused" :=
  have h := (listing_error_returned starMask fiveFieldParser storedOrder unreachable).1
    "connection refused" rfl
  ⟨by decide, h.1, h.2.1⟩

/-- C9: on a successful listing in which at least one object has a Failure, the
returned sequence has exactly one element, whatever the accumulator held: the
Result of kind `CronJob` of some key `k`, with the Failure sequence `f` that
the map holds for `k`, where `k` is the key of a listed object whose Failure
sequence is `f`, and `f` is not empty. Which key it is depends on the order in
which the map is visited: on the listing of `ops/backup` and `batch/nightly`
two visiting orders return different Results. -/
theorem failing_listing_single_result (MaskString : String → String)
    (ParseStandard : String → Option String)
    (rangeOrder : RangeOrder) (hv : ValidRangeOrder rangeOrder) (a : Analyzer)
    (items : List CronJob)
    (hlist : a.Client.ListCronJobs a.Namespace = Except.ok items)
    (hfail : ∃ cj ∈ items, cronJobFailures MaskString ParseStandard cj ≠ []) :
    (Analyze MaskString ParseStandard rangeOrder a).results.length = 1
    ∧ (∃ k f, (Analyze MaskString ParseStandard rangeOrder a).results =
          [{ Kind := "CronJob", Name := k, Error := f }]
        ∧ mapGet (loopEnd MaskString ParseStandard rangeOrder a items).preAnalysis k
            = some { FailureDetails := f }
        ∧ ∃ cj ∈ items, objectKey cj = k
            ∧ cronJobFailures MaskString ParseStandard cj = f ∧ f ≠ [])
    ∧ (ValidRangeOrder storedOrder ∧ ValidRangeOrder reversedOrder
        ∧ (Analyze starMask fiveFieldParser storedOrder twoFailing).results
            ≠ (Analyze starMask fiveFieldParser reversedOrder twoFailing).results) := by
  have h := results_of_failing MaskString ParseStandard rangeOrder hv a items hlist hfail
  refine ⟨?_, h, storedOrder_valid, reversedOrder_valid, by decide⟩
  obtain ⟨k, f, hres, _⟩ := h
  rw [hres]
  rfl

/-- C9, at the listing of `ops/backup` and `batch/nightly`, visited as stored. -/
theorem failing_listing_single_result_witness :
    (∃ cj ∈ [backup, nightly], cronJobFailures starMask fiveFieldParser cj ≠ [])
    ∧ (Analyze starMask fiveFieldParser storedOrder twoFailing).results.length = 1 :=
  have hfail : ∃ cj ∈ [backup, nightly],
      cronJobFailures starMask fiveFieldParser cj ≠ [] := by decide
  ⟨hfail,
    (failing_listing_single_result starMask fiveFieldParser storedOrder storedOrder_valid
      twoFailing [backup, nightly] rfl hfail).1⟩

/-- C10: on a successful listing in which no object has a Failure (the empty
listing included), `Analyze` returns the incoming accumulator unchanged, with a
nil error; so the returned sequence is empty only if the accumulator was. -/
theorem healthy_listing_returns_accumulator (MaskString : String → String)
    (ParseStandard : String → Option String)
    (rangeOrder : RangeOrder) (hv : ValidRangeOrder rangeOrder) (a : Analyzer)
    (items : List CronJob)
    (hlist : a.Client.ListCronJobs a.Namespace = Except.ok items)
    (hok : ∀ cj ∈ items, cronJobFailures MaskString ParseStandard cj = []) :
    (Analyze MaskString ParseStandard rangeOrder a).results = a.Results
    ∧ (Analyze MaskString ParseStandard rangeOrder a).err = none
    ∧ ((Analyze MaskString ParseStandard rangeOrder a).results = [] → a.Results = []) := by
  have h := results_of_healthy MaskString ParseStandard rangeOrder hv a items hlist hok
  refine ⟨h, ?_, fun h0 => h ▸ h0⟩
  rw [Analyze_ok MaskString ParseStandard rangeOrder a items hlist]

/-- C10, at the listing of the healthy `ops/ok` with a one-element accumulator. -/
theorem healthy_listing_returns_accumulator_witness :
    (∀ cj ∈ [healthy], cronJobFailures starMask fiveFieldParser cj = [])
    ∧ (Analyze starMask fiveFieldParser storedOrder staleAccumulator).results
        = [{ Kind := "Pod", Name := "ops/ok", Error := [] }] :=
  have hok : ∀ cj ∈ [healthy], cronJobFailures starMask fiveFieldParser cj = [] := by decide
  ⟨hok,
    (healthy_listing_returns_accumulator starMask fiveFieldParser storedOrder
      storedOrder_valid staleAccumulator [healthy] rfl hok).1⟩

/-! ## Claim on the filter list command -/

/-- C8: in `listCmd.Run`, `activeFilters` is the configured list, or the core
list when the configured list is empty; `availableFilters` is core, then
additional, then integration; `inactiveFilters` is the elements of
`availableFilters`, in their order, that are not in `activeFilters`; and no
name is in both `activeFilters` and `inactiveFilters`. -/
theorem inactive_filters_difference
    (configured coreFilters additionalFilters integrationFilters : List String) :
    (listRun configured coreFilters additionalFilters integrationFilters).activeFilters
        = (if configured = [] then coreFilters else configured)
    ∧ (listRun configured coreFilters additionalFilters integrationFilters).availableFilters
        = coreFilters ++ additionalFilters ++ integrationFilters
    ∧ (listRun configured coreFilters additionalFilters integrationFilters).inactiveFilters
        = (listRun configured coreFilters additionalFilters
            integrationFilters).availableFilters.filter
          (fun x => decide (x ∉ (listRun configured coreFilters additionalFilters
            integrationFilters).activeFilters))
    ∧ ∀ x, ¬ (x ∈ (listRun configured coreFilters additionalFilters
                integrationFilters).activeFilters
            ∧ x ∈ (listRun configured coreFilters additionalFilters
                integrationFilters).inactiveFilters) := by
  have hinact :
      (listRun configured coreFilters additionalFilters integrationFilters).inactiveFilters
        = (listRun configured coreFilters additionalFilters
            integrationFilters).availableFilters.filter
          (fun x => decide (x ∉ (listRun configured coreFilters additionalFilters
            integrationFilters).activeFilters)) := by
    simp only [listRun]
    exact SliceDiff_eq_filter _ _
  refine ⟨?_, rfl, hinact, ?_⟩
  · simp only [listRun, List.length_eq_zero]
  · rintro x ⟨hact, hin⟩
    rw [hinact, List.mem_filter] at hin
    have := hin.2
    simp only [decide_eq_true_eq] at this
    exact this hact

end K8sgpt
